import Mathlib

set_option maxHeartbeats 1000000

/-!
Shallow embedding of the JSON-schema validator of `mercurius-validation`
(`src/lib/validators/json-schema-validator.js`) together with the plugin
wiring of `index.js`.

JavaScript objects are modelled as association lists of string-keyed
JSON-like values; the object spread `{...a, ...b}` is modelled by a
right-biased merge that preserves the key-to-value mapping (JavaScript key
insertion order is not modelled, only lookup).  Helper functions that live
in files outside the provided sources (`lib/utils.js`, `lib/validator.js`)
are modelled from the spec and carry a doc comment saying so.
-/

/-- A JSON-like JavaScript value.  The `func` constructor stands for a
user-supplied validation function, which is opaque to the schema builder:
spreading it into an object literal contributes no keys and member access
on it yields nothing. -/
inductive JVal where
  | null
  | bool (b : Bool)
  | num (n : Int)
  | str (s : String)
  | arr (elems : List JVal)
  | obj (fields : List (String × JVal))
  | func (tag : Nat)

/-- A JavaScript object: an association list of string keys and values. -/
abbrev Obj := List (String × JVal)

/-- Property lookup on an object: the value of the first entry whose key
matches (JavaScript objects have unique keys, so first-match is faithful). -/
def objGet (o : Obj) (k : String) : Option JVal :=
  match o.find? (fun p => p.1 == k) with
  | some p => some p.2
  | none => none

/-- Whether the object has the given key. -/
def objHas (o : Obj) (k : String) : Bool :=
  (objGet o k).isSome

/-- The JavaScript object spread `{...a, ...b}`: for every key present in
both, `b`'s value wins; keys present in only one side are kept. -/
def objMerge (a b : Obj) : Obj :=
  b ++ a.filter (fun p => !objHas b p.1)

/-- Left-biased choice on optional values, used to state lookup-after-merge. -/
def oor : Option JVal → Option JVal → Option JVal
  | some v, _ => some v
  | none, o => o

/-- The JavaScript spread of an arbitrary value into an object literal:
objects contribute their entries, arrays and strings their index-keyed
elements, and primitives and functions contribute nothing. -/
def spreadEntries : JVal → Obj
  | .obj l => l
  | .arr xs => xs.enum.map (fun p => (toString p.1, p.2))
  | .str s => s.toList.enum.map (fun p => (toString p.1, JVal.str p.2.toString))
  | _ => []

/-- JavaScript member access `v.k`: defined (only) on objects. -/
def getProp : JVal → String → Option JVal
  | .obj l, k => objGet l k
  | _, _ => none

/-- JavaScript truthiness (NaN is not modelled). -/
def truthy : JVal → Bool
  | .null => false
  | .bool b => b
  | .num n => n != 0
  | .str s => s != ""
  | .arr _ => true
  | .obj _ => true
  | .func _ => true

/-- Models the idiom `x || null` followed by `!== null` tests: an absent or
falsy value collapses to `none`. -/
def orNull : Option JVal → Option JVal
  | some v => if truthy v then some v else none
  | none => none

/-- The named leaf type of a position in the GraphQL type graph: one of the
five primitive scalar kinds, an input-object type (composite), or any other
named type (enums, output object types, unions), which the schema builder
treats uniformly as having no inferable shape. -/
inductive GqlLeaf where
  | string
  | int
  | float
  | boolean
  | id
  | inputObject (name : String)
  | other (name : String)
  deriving DecidableEq

/-- The name of the leaf type, as `namedType.name` reads it. -/
def GqlLeaf.tname : GqlLeaf → String
  | .string => "String"
  | .int => "Int"
  | .float => "Float"
  | .boolean => "Boolean"
  | .id => "ID"
  | .inputObject n => n
  | .other n => n

/-- Whether the leaf is an input-object type (`isInputObjectType(namedType)`). -/
def GqlLeaf.isInputObject : GqlLeaf → Bool
  | .inputObject _ => true
  | _ => false

/-- A typed position (a field's or an argument's declared type) as the
validator consumes it: the named leaf type, whether the unwrapped type is a
list (`isListType(type)`), and whether the outermost wrapper is non-null.
This is the data `getTypeInfo` (in `lib/utils.js`, not part of the provided
sources) extracts from a field or argument; we model positions as carrying
it directly. -/
structure TypedPosition where
  leaf : GqlLeaf
  isList : Bool
  isNonNull : Bool
  deriving DecidableEq

/-- Modelled from the spec: `inferJSONSchemaType` lives in `lib/utils.js`,
which is not among the provided sources.  Per the spec's Type Inference
contract, each primitive leaf kind maps to its canonical JSON-schema shape,
marked nullable (a type union with "null") unless the position is non-null;
unknown leaf kinds (composite and other types) yield an empty fragment. -/
def inferJSONSchemaType (namedType : GqlLeaf) (isNonNull : Bool) : Obj :=
  let prim (t : String) : Obj :=
    if isNonNull then [("type", JVal.str t)]
    else [("type", JVal.arr [JVal.str t, JVal.str "null"])]
  match namedType with
  | .string => prim "string"
  | .id => prim "string"
  | .int => prim "integer"
  | .float => prim "number"
  | .boolean => prim "boolean"
  | .inputObject _ => []
  | .other _ => []

/-- The common prefix of every reference identifier. -/
def refBase : String := "https://mercurius.dev/validation/"

/-- The type-level reference id `https://mercurius.dev/validation/<Type>`. -/
def typeRefId (typeName : String) : String :=
  refBase ++ typeName

/-- The field-level reference id
`https://mercurius.dev/validation/<Type>/<field>`. -/
def fieldRefId (typeName fieldName : String) : String :=
  refBase ++ typeName ++ "/" ++ fieldName

/-- The argument-level reference id
`https://mercurius.dev/validation/<Type>/<field>/<argument>`. -/
def argRefId (typeName fieldName argumentName : String) : String :=
  refBase ++ typeName ++ "/" ++ fieldName ++ "/" ++ argumentName

/-- The synthesized part of `kValidationSchema` (lines 13-39 of
`json-schema-validator.js`), before the final merge with the override:
start from the inferred shape tagged with the id; for an input-object leaf
substitute a reference to the type-level id (as the array item shape when
the position is a list); for a list of non-input leaves set the array type,
infer the items and merge in the override's `items`. -/
def kValidationSchemaBuilt (type_ : TypedPosition) (typeValidation : Option JVal)
    (id : String) : Obj :=
  let built0 : Obj :=
    objMerge (inferJSONSchemaType type_.leaf type_.isNonNull) [("$id", JVal.str id)]
  match type_.leaf with
  | .inputObject n =>
    if type_.isList then
      let items : Obj :=
        objMerge
          (match objGet built0 "items" with
           | some v => spreadEntries v
           | none => [])
          [("$ref", JVal.str (typeRefId n))]
      objMerge built0
        [("type", JVal.str "array"), ("items", JVal.obj items),
         ("nullable", JVal.bool (!type_.isNonNull))]
    else
      objMerge built0
        [("type", JVal.str "object"), ("$ref", JVal.str (typeRefId n)),
         ("nullable", JVal.bool (!type_.isNonNull))]
  | _ =>
    if type_.isList then
      let items0 : Obj :=
        objMerge (inferJSONSchemaType type_.leaf type_.isNonNull)
          (match objGet built0 "items" with
           | some v => spreadEntries v
           | none => [])
      let items : Obj :=
        match typeValidation with
        | some tv =>
          objMerge items0
            (match getProp tv "items" with
             | some v => spreadEntries v
             | none => [])
        | none => items0
      objMerge built0
        [("type", JVal.str "array"), ("items", JVal.obj items),
         ("nullable", JVal.bool (!type_.isNonNull))]
    else built0

/-- `kValidationSchema` (lines 13-47): the synthesized fragment merged with
the override, `{...typeValidation, ...builtValidationSchema}` — the
synthesized entries spread second, so they win on shared keys. -/
def kValidationSchema (type_ : TypedPosition) (typeValidation : Option JVal)
    (id : String) : Obj :=
  let builtValidationSchema := kValidationSchemaBuilt type_ typeValidation id
  match typeValidation with
  | some tv => objMerge (spreadEntries tv) builtValidationSchema
  | none => builtValidationSchema

/-- A GraphQL field argument, carrying its name and typed position. -/
structure GqlArgument where
  name : String
  pos : TypedPosition
  deriving DecidableEq

/-- A field of a GraphQL type as the walk reads it: `args` is `some`
exactly when the field object carries an `args` property (output-object
fields do, with a possibly empty array; input-object fields do not), and
`pos` is the field's own typed position. -/
structure GqlField where
  args : Option (List GqlArgument)
  pos : TypedPosition
  deriving DecidableEq

/-- A named type of the schema's type map: whether it is an input-object
type, whether it exposes `getFields` (scalars and enums do not), and its
fields in definition order. -/
structure GqlNamedType where
  isInputObject : Bool
  hasGetFields : Bool
  fields : List (String × GqlField)
  deriving DecidableEq

/-- The schema's type map, `Object.entries(schema.getTypeMap())`. -/
abbrev GqlSchema := List (String × GqlNamedType)

/-- The per-argument override lookup
`fieldValidation !== null ? fieldValidation[argument.name] || null : null`. -/
def argOverride (fieldValidation : Option JVal) (argumentName : String) : Option JVal :=
  match fieldValidation with
  | some fv => orNull (getProp fv argumentName)
  | none => none

/-- The per-field override lookup
`typeValidation !== null ? typeValidation[fieldName] || null : null`. -/
def fieldOverride (typeValidation : Option JVal) (fieldName : String) : Option JVal :=
  match typeValidation with
  | some tv => orNull (getProp tv fieldName)
  | none => none

/-- `kBuildArgumentsSchema` (lines 49-69): one object schema per field with
arguments, registered under the field-scoped id, whose properties are the
per-argument synthesized fragments.  Every argument contributes a property,
whatever its override.  (The source also calls `kOverrideFieldResolver`
here; interception is recorded by the caller in this embedding.) -/
def kBuildArgumentsSchema (typeName fieldName : String) (args : List GqlArgument)
    (fieldValidation : Option JVal) : Obj :=
  let properties : Obj :=
    args.map (fun argument =>
      (argument.name,
       JVal.obj (kValidationSchema argument.pos
         (argOverride fieldValidation argument.name)
         (argRefId typeName fieldName argument.name))))
  [("$id", JVal.str (fieldRefId typeName fieldName)),
   ("type", JVal.str "object"),
   ("properties", JVal.obj properties)]

/-- The errors a compilation pass can raise: the field-type-undefined
configuration error of lines 78-82 (carrying the fragment's `$id` value),
and an AJV compile failure on an unresolved reference. -/
inductive MerError where
  | fieldTypeUndefined (idVal : Option JVal)
  | unresolvedRef (id : String)

/-- Whether an optional value is a string or an array
(`typeof x === 'string' || Array.isArray(x)`). -/
def isStringOrArray : Option JVal → Bool
  | some (.str _) => true
  | some (.arr _) => true
  | _ => false

/-- `kBuildInputTypeFieldSchema` (lines 71-88): synthesize the fragment for
a zero-argument input-object field; if an override was supplied and the
fragment's `type` is undefined, throw the field-type-undefined error
(carrying the fragment's `$id`); return the fragment only when its `type`
is a string or an array, and `none` (field omitted) otherwise. -/
def kBuildInputTypeFieldSchema (typeName fieldName : String) (fieldPos : TypedPosition)
    (fieldValidation : Option JVal) : Except MerError (Option Obj) :=
  let id := fieldRefId typeName fieldName
  let builtFieldValidationSchema := kValidationSchema fieldPos fieldValidation id
  if fieldValidation.isSome && (objGet builtFieldValidationSchema "type").isNone then
    .error (.fieldTypeUndefined (objGet builtFieldValidationSchema "$id"))
  else if isStringOrArray (objGet builtFieldValidationSchema "type") then
    .ok (some builtFieldValidationSchema)
  else
    .ok none

/-- The type-level validation schema skeleton of lines 111-116, with the
`properties` object it accumulates during the field loop. -/
def typeLevelSchema (typeName : String) (properties : Obj) : Obj :=
  [("$id", JVal.str (typeRefId typeName)),
   ("type", JVal.str "object"),
   ("nullable", JVal.bool true),
   ("properties", JVal.obj properties)]

/-- The type-level schema after the `__typeValidation` merge of lines
121-123, `{...typeValidation.__typeValidation, ...typeValidationSchema}`.
The source performs the merge before the field loop and then mutates the
`properties` object in place; merging with the final `properties` value is
equivalent, because the skeleton's entries win the merge. -/
def finalTypeSchema (typeName : String) (typeValidation : Option JVal)
    (properties : Obj) : Obj :=
  let base := typeLevelSchema typeName properties
  match typeValidation with
  | some tv =>
    match getProp tv "__typeValidation" with
    | some tvv => objMerge (spreadEntries tvv) base
    | none => base
  | none => base

/-- The field loop of lines 125-138, processing the fields of one type in
order.  Returns the accumulated type-level `properties` entries, the
schemas pushed onto `schemasToRegister`, and the `(typeName, fieldName)`
pairs marked for resolver interception by `kOverrideFieldResolver`. -/
def processFields (typeValidation : Option JVal) (typeName : String)
    (isInputObject : Bool) :
    List (String × GqlField) →
    Except MerError (Obj × List Obj × List (String × String))
  | [] => .ok ([], [], [])
  | (fieldName, schemaTypeField) :: rest => do
    let fieldValidation := fieldOverride typeValidation fieldName
    let (props, schemas, intercepted) ←
      match schemaTypeField.args with
      | some args =>
        if args.length > 0 then
          .ok (([] : Obj),
               [kBuildArgumentsSchema typeName fieldName args fieldValidation],
               [(typeName, fieldName)])
        else if isInputObject then
          match kBuildInputTypeFieldSchema typeName fieldName schemaTypeField.pos
              fieldValidation with
          | .error e => .error e
          | .ok (some s) => .ok ([(fieldName, JVal.obj s)], [], [])
          | .ok none => .ok ([], [], [])
        else
          .ok ([], [], [])
      | none =>
        if isInputObject then
          match kBuildInputTypeFieldSchema typeName fieldName schemaTypeField.pos
              fieldValidation with
          | .error e => .error e
          | .ok (some s) => .ok ([(fieldName, JVal.obj s)], [], [])
          | .ok none => .ok ([], [], [])
        else
          .ok ([], [], [])
    let (props', schemas', intercepted') ←
      processFields typeValidation typeName isInputObject rest
    .ok (props ++ props', schemas ++ schemas', intercepted ++ intercepted')

/-- The JavaScript `typeName.startsWith('__')` check, modelled as a list
prefix test on the string's characters (the core `String.startsWith` is
byte-based and does not reduce definitionally). -/
def strStartsWith (s pre : String) : Bool :=
  pre.data.isPrefixOf s.data

/-- Lines 109-144 for one entry of the type map: skip introspection types
(name starting `__`) and types without `getFields`; walk the fields; for an
input-object type additionally push the (possibly `__typeValidation`-merged)
type-level schema after all its fields. -/
def processType (validationSchema : Obj) (typeName : String) (schemaType : GqlNamedType) :
    Except MerError (List Obj × List (String × String)) :=
  let typeValidation := orNull (objGet validationSchema typeName)
  if !strStartsWith typeName "__" && schemaType.hasGetFields then do
    let (props, schemas, intercepted) ←
      processFields typeValidation typeName schemaType.isInputObject schemaType.fields
    let schemas' :=
      if schemaType.isInputObject then
        schemas ++ [finalTypeSchema typeName typeValidation props]
      else schemas
    .ok (schemas', intercepted)
  else
    .ok ([], [])

/-- The full graph walk of lines 106-144, in type-map order: the list of
schemas to register and the fields marked for interception. -/
def walkTypes (validationSchema : Obj) :
    GqlSchema → Except MerError (List Obj × List (String × String))
  | [] => .ok ([], [])
  | (typeName, schemaType) :: rest => do
    let (schemas, intercepted) ← processType validationSchema typeName schemaType
    let (schemas', intercepted') ← walkTypes validationSchema rest
    .ok (schemas ++ schemas', intercepted ++ intercepted')

/-- The modelled state of one AJV instance: the schemas added by
`addSchema(schema, schema.$id)` keyed by their id, and the ids whose forced
compilation (`getSchema`) has succeeded. -/
structure AjvInstance where
  schemas : List (String × Obj)
  compiled : List String

/-- The empty AJV instance created by `new Ajv(...)` at the start of every
`registerValidationSchema` call (lines 92-103). -/
def freshAjv : AjvInstance :=
  { schemas := [], compiled := [] }

/-- An observable step of the registration/compilation phase of one pass. -/
inductive Event where
  | register (id : String)
  | compile (id : String)
  deriving DecidableEq

/-- The key a schema is registered under: its `$id` value
(`addSchema(schemaToRegister, schemaToRegister.$id)`); every schema the
walk produces carries a string `$id`. -/
def idOf (o : Obj) : String :=
  match objGet o "$id" with
  | some (.str s) => s
  | _ => ""

mutual

/-- All `$ref` target strings occurring anywhere inside a value. -/
def refsOfVal : JVal → List String
  | .obj l => refsOfEntries l
  | .arr xs => refsOfElems xs
  | _ => []

def refsOfEntries : List (String × JVal) → List String
  | [] => []
  | (k, v) :: rest =>
    ((if k == "$ref" then
        match v with
        | .str s => [s]
        | _ => []
      else []) ++ refsOfVal v) ++ refsOfEntries rest

def refsOfElems : List JVal → List String
  | [] => []
  | v :: rest => refsOfVal v ++ refsOfElems rest

end

/-- All `$ref` target strings occurring anywhere inside an object. -/
def refsOfObj (o : Obj) : List String :=
  refsOfVal (.obj o)

/-- Modelled behaviour of AJV's reference resolution: force-compiling a
schema succeeds exactly when every `$ref` it contains names a registered
schema.  (Resolution is modelled one level deep; the pass force-compiles
every registered unit, so transitive targets are each checked in turn.) -/
def compileOk (allIds : List String) (o : Obj) : Bool :=
  (refsOfObj o).all (fun r => allIds.contains r)

/-- The forced-compilation loop of lines 151-155: `getSchema` each id in
registration order, stopping at the first unresolved reference (AJV
throws).  Returns the successfully compiled ids, the compile events
attempted, and the error if any. -/
def compilePhase (allIds : List String) :
    List (String × Obj) → List String × List Event × Option MerError
  | [] => ([], [], none)
  | (id, o) :: rest =>
    if compileOk allIds o then
      let (compiled, events, err) := compilePhase allIds rest
      (id :: compiled, Event.compile id :: events, err)
    else
      ([], [Event.compile id], some (.unresolvedRef id))

/-- The observable outcome of one `registerValidationSchema` call. -/
structure PassOutput where
  result : Except MerError Unit
  ajv : AjvInstance
  newIntercepted : List (String × String)
  trace : List Event

/-- `registerValidationSchema` (lines 90-156): replace the AJV instance
with a fresh one, walk the type map collecting every schema, add them all
(lines 147-149), and only then force-compile each one (lines 153-155).  A
walk error propagates to the caller, leaving the fresh instance with
nothing added.  (Resolver overrides applied before a walk throw are not
modelled; no claim concerns them.) -/
def registerValidationSchema (schema : GqlSchema) (validationSchema : Obj) :
    PassOutput :=
  match walkTypes validationSchema schema with
  | .error e =>
    { result := .error e, ajv := freshAjv, newIntercepted := [], trace := [] }
  | .ok (schemasToRegister, intercepted) =>
    let pairs := schemasToRegister.map (fun s => (idOf s, s))
    let allIds := pairs.map Prod.fst
    let (compiled, compileEvents, err) := compilePhase allIds pairs
    { result := match err with | some e => .error e | none => .ok ()
      ajv := { schemas := pairs, compiled := compiled }
      newIntercepted := intercepted
      trace := schemasToRegister.map (fun s => Event.register (idOf s)) ++ compileEvents }

/-- The validator's process-scoped state: the currently installed AJV
instance (none before the first pass) and the fields whose resolvers have
been wrapped. -/
structure ValidatorState where
  ajv : Option AjvInstance
  intercepted : List (String × String)

/-- The state before the plugin first registers a schema. -/
def initialValidatorState : ValidatorState :=
  { ajv := none, intercepted := [] }

/-- One `registerValidationSchema` call as a transition on the validator's
state (`index.js` invokes it at startup and again from the
`onGatewayReplaceSchema` hook): the AJV instance field is replaced by the
instance the pass created — whether or not the pass succeeded, since the
assignment at line 92 precedes the walk — and the pass's outcome is
surfaced to the caller. -/
def runRegister (st : ValidatorState) (schema : GqlSchema) (validationSchema : Obj) :
    ValidatorState × Except MerError Unit :=
  let out := registerValidationSchema schema validationSchema
  ({ ajv := some out.ajv, intercepted := st.intercepted ++ out.newIntercepted },
   out.result)

/-- Modelled from the spec: request-time validation (§4.4; `lib/validator.js`
is not among the provided sources) fetches a compiled unit from the
currently installed AJV instance by its reference id. -/
def servedUnit (st : ValidatorState) (id : String) : Option Obj :=
  match st.ajv with
  | some ajv =>
    match ajv.schemas.find? (fun p => p.1 == id) with
    | some p => some p.2
    | none => none
  | none => none

/-- The `properties` entries of a built schema object. -/
def propsOf (o : Obj) : Obj :=
  match objGet o "properties" with
  | some (.obj l) => l
  | _ => []

/-- The name triple identifying a validatable unit: a whole input-object
type, a field, or a field argument. -/
inductive RefTriple where
  | typeLevel (typeName : String)
  | fieldLevel (typeName fieldName : String)
  | argLevel (typeName fieldName argumentName : String)
  deriving DecidableEq

/-- The reference id the source assigns to each kind of unit. -/
def refIdOf : RefTriple → String
  | .typeLevel t => typeRefId t
  | .fieldLevel t f => fieldRefId t f
  | .argLevel t f a => argRefId t f a

/-- A string containing no slash, as every GraphQL name does (names match
`[_A-Za-z][_0-9A-Za-z]*`). -/
def slashFreeStr (s : String) : Prop :=
  ('/' : Char) ∉ s.data

instance (s : String) : Decidable (slashFreeStr s) := by
  unfold slashFreeStr
  infer_instance

/-- All components of the name triple are slash-free. -/
def RefTriple.slashFree : RefTriple → Prop
  | .typeLevel t => slashFreeStr t
  | .fieldLevel t f => slashFreeStr t ∧ slashFreeStr f
  | .argLevel t f a => slashFreeStr t ∧ slashFreeStr f ∧ slashFreeStr a

instance (t : RefTriple) : Decidable t.slashFree := by
  cases t <;> simp only [RefTriple.slashFree] <;> infer_instance

theorem objGet_nil (k : String) : objGet [] k = none := rfl

theorem objGet_cons (k k' : String) (v : JVal) (rest : Obj) :
    objGet ((k', v) :: rest) k = if k' = k then some v else objGet rest k := by
  by_cases h : k' = k
  · subst h
    simp [objGet, List.find?]
  · have hb : (k' == k) = false := beq_eq_false_iff_ne.mpr h
    simp [objGet, List.find?, hb, h]

theorem objGet_append (a b : Obj) (k : String) :
    objGet (a ++ b) k = oor (objGet a k) (objGet b k) := by
  induction a with
  | nil => simp [objGet, oor]
  | cons p rest ih =>
    obtain ⟨k', v⟩ := p
    rw [List.cons_append, objGet_cons, objGet_cons]
    by_cases h : k' = k
    · simp [h, oor]
    · simp [h, ih]

theorem objGet_filter_of_not_has (a b : Obj) (k : String) (h : objHas b k = false) :
    objGet (a.filter (fun p => !objHas b p.1)) k = objGet a k := by
  induction a with
  | nil => rfl
  | cons p rest ih =>
    obtain ⟨k', v⟩ := p
    by_cases hk : k' = k
    · subst hk
      rw [List.filter_cons]
      simp only [h, Bool.not_false, if_pos]
      rw [objGet_cons, objGet_cons]
      simp
    · rw [List.filter_cons]
      by_cases hb : objHas b k' = true
      · simp only [hb, Bool.not_true]
        simpa only [objGet_cons, hk, if_neg, ite_false] using ih
      · simp only [Bool.not_eq_true] at hb
        simp only [hb, Bool.not_false, if_pos]
        rw [objGet_cons, objGet_cons]
        simp only [hk, if_false, ite_false]
        exact ih

/-- Lookup after a spread-merge: the right operand's binding wins. -/
theorem objGet_merge (a b : Obj) (k : String) :
    objGet (objMerge a b) k = oor (objGet b k) (objGet a k) := by
  rw [objMerge, objGet_append]
  cases hb : objGet b k with
  | some v => simp [oor]
  | none =>
    have hhas : objHas b k = false := by simp [objHas, hb]
    simp [oor, objGet_filter_of_not_has a b k hhas]

theorem objGet_merge_right {b : Obj} {k : String} {v : JVal} (a : Obj)
    (h : objGet b k = some v) : objGet (objMerge a b) k = some v := by
  rw [objGet_merge, h]; rfl

theorem objGet_merge_left {b : Obj} {k : String} (a : Obj)
    (h : objGet b k = none) : objGet (objMerge a b) k = objGet a k := by
  rw [objGet_merge, h]; rfl

theorem dataAppend (s t : String) : (s ++ t).data = s.data ++ t.data := by
  cases s
  cases t
  rfl

theorem stringExt {s t : String} (h : s.data = t.data) : s = t := by
  cases s
  cases t
  exact congrArg String.mk h

theorem slashSplit {a c b d : List Char}
    (ha : ('/' : Char) ∉ a) (hc : ('/' : Char) ∉ c)
    (h : a ++ '/' :: b = c ++ '/' :: d) : a = c ∧ b = d := by
  induction a generalizing c with
  | nil =>
    cases c with
    | nil =>
      rw [List.nil_append, List.nil_append] at h
      injection h with h1 h2
      exact ⟨rfl, h2⟩
    | cons x c' =>
      rw [List.nil_append, List.cons_append] at h
      injection h with h1 h2
      subst h1
      exact absurd (List.mem_cons_self _ _) hc
  | cons y a' ih =>
    cases c with
    | nil =>
      rw [List.nil_append, List.cons_append] at h
      injection h with h1 h2
      rw [h1] at ha
      exact absurd (List.mem_cons_self _ _) ha
    | cons x c' =>
      rw [List.cons_append, List.cons_append] at h
      injection h with h1 h2
      subst h1
      have ha' : ('/' : Char) ∉ a' := fun hm => ha (List.mem_cons_of_mem _ hm)
      have hc' : ('/' : Char) ∉ c' := fun hm => hc (List.mem_cons_of_mem _ hm)
      obtain ⟨hac, hbd⟩ := ih ha' hc'  h2
      exact ⟨by rw [hac], hbd⟩

theorem typeRefId_data (t : String) :
    (typeRefId t).data = refBase.data ++ t.data := by
  rw [typeRefId, dataAppend]

theorem fieldRefId_data (t f : String) :
    (fieldRefId t f).data = refBase.data ++ (t.data ++ '/' :: f.data) := by
  have hs : ("/" : String).data = ['/'] := rfl
  simp only [fieldRefId, dataAppend, hs, List.append_assoc, List.singleton_append]

theorem argRefId_data (t f a : String) :
    (argRefId t f a).data = refBase.data ++ (t.data ++ '/' :: (f.data ++ '/' :: a.data)) := by
  have hs : ("/" : String).data = ['/'] := rfl
  simp only [argRefId, dataAppend, hs, List.append_assoc, List.singleton_append,
    List.cons_append, List.nil_append]

theorem typeRefId_ne_fieldRefId {n : String} (hn : slashFreeStr n) (t f : String) :
    typeRefId n ≠ fieldRefId t f := by
  intro h
  have hd : (typeRefId n).data = (fieldRefId t f).data := by rw [h]
  rw [typeRefId_data, fieldRefId_data] at hd
  have hnd := List.append_cancel_left hd
  apply hn
  rw [hnd]
  exact List.mem_append_right _ (List.mem_cons_self _ _)

theorem typeRefId_ne_argRefId {n : String} (hn : slashFreeStr n) (t f a : String) :
    typeRefId n ≠ argRefId t f a := by
  intro h
  have hd : (typeRefId n).data = (argRefId t f a).data := by rw [h]
  rw [typeRefId_data, argRefId_data] at hd
  have hnd := List.append_cancel_left hd
  apply hn
  rw [hnd]
  exact List.mem_append_right _ (List.mem_cons_self _ _)

theorem typeRefId_inj {t t' : String} (h : typeRefId t = typeRefId t') : t = t' := by
  have hd : (typeRefId t).data = (typeRefId t').data := by rw [h]
  rw [typeRefId_data, typeRefId_data] at hd
  exact stringExt (List.append_cancel_left hd)

theorem fieldRefId_inj {t f t' f' : String} (ht : slashFreeStr t) (ht' : slashFreeStr t')
    (h : fieldRefId t f = fieldRefId t' f') : t = t' ∧ f = f' := by
  have hd : (fieldRefId t f).data = (fieldRefId t' f').data := by rw [h]
  rw [fieldRefId_data, fieldRefId_data] at hd
  obtain ⟨h1, h2⟩ := slashSplit ht ht' (List.append_cancel_left hd)
  exact ⟨stringExt h1, stringExt h2⟩

theorem fieldRefId_ne_argRefId {t f : String} (ht : slashFreeStr t) (hf : slashFreeStr f)
    (t' f' a' : String) (ht' : slashFreeStr t') :
    fieldRefId t f ≠ argRefId t' f' a' := by
  intro h
  have hd : (fieldRefId t f).data = (argRefId t' f' a').data := by rw [h]
  rw [fieldRefId_data, argRefId_data] at hd
  obtain ⟨h1, h2⟩ := slashSplit ht ht' (List.append_cancel_left hd)
  apply hf
  rw [h2]
  exact List.mem_append_right _ (List.mem_cons_self _ _)

theorem argRefId_inj {t f a t' f' a' : String}
    (ht : slashFreeStr t) (hf : slashFreeStr f) (ht' : slashFreeStr t') (hf' : slashFreeStr f')
    (h : argRefId t f a = argRefId t' f' a') : t = t' ∧ f = f' ∧ a = a' := by
  have hd : (argRefId t f a).data = (argRefId t' f' a').data := by rw [h]
  rw [argRefId_data, argRefId_data] at hd
  obtain ⟨h1, h2⟩ := slashSplit ht ht' (List.append_cancel_left hd)
  obtain ⟨h3, h4⟩ := slashSplit hf hf' h2
  exact ⟨stringExt h1, stringExt h3, stringExt h4⟩

/-- The reference-id encoding is injective on slash-free name triples. -/
theorem refIdOf_inj (t1 t2 : RefTriple) (h1 : t1.slashFree) (h2 : t2.slashFree)
    (h : refIdOf t1 = refIdOf t2) : t1 = t2 := by
  cases t1 with
  | typeLevel t =>
    cases t2 with
    | typeLevel t' => rw [typeRefId_inj h]
    | fieldLevel t' f' => exact absurd h (typeRefId_ne_fieldRefId h1 t' f')
    | argLevel t' f' a' => exact absurd h (typeRefId_ne_argRefId h1 t' f' a')
  | fieldLevel t f =>
    cases t2 with
    | typeLevel t' => exact absurd h.symm (typeRefId_ne_fieldRefId h2 t f)
    | fieldLevel t' f' =>
      obtain ⟨e1, e2⟩ := fieldRefId_inj h1.1 h2.1 h
      rw [e1, e2]
    | argLevel t' f' a' => exact absurd h (fieldRefId_ne_argRefId h1.1 h1.2 t' f' a' h2.1)
  | argLevel t f a =>
    cases t2 with
    | typeLevel t' => exact absurd h.symm (typeRefId_ne_argRefId h2 t f a)
    | fieldLevel t' f' => exact absurd h.symm (fieldRefId_ne_argRefId h2.1 h2.2 t f a h1.1)
    | argLevel t' f' a' =>
      obtain ⟨e1, e2, e3⟩ := argRefId_inj h1.1 h1.2.1 h2.1 h2.2.1 h
      rw [e1, e2, e3]

theorem built_inputObject_nonlist (n : String) (isNN : Bool) (tv : Option JVal) (id : String) :
    kValidationSchemaBuilt ⟨.inputObject n, false, isNN⟩ tv id =
      [("type", JVal.str "object"), ("$ref", JVal.str (typeRefId n)),
       ("nullable", JVal.bool (!isNN)), ("$id", JVal.str id)] := rfl

theorem built_inputObject_list (n : String) (isNN : Bool) (tv : Option JVal) (id : String) :
    kValidationSchemaBuilt ⟨.inputObject n, true, isNN⟩ tv id =
      [("type", JVal.str "array"),
       ("items", JVal.obj [("$ref", JVal.str (typeRefId n))]),
       ("nullable", JVal.bool (!isNN)), ("$id", JVal.str id)] := rfl

theorem kValidationSchemaBuilt_id (pos : TypedPosition) (tv : Option JVal) (id : String) :
    objGet (kValidationSchemaBuilt pos tv id) "$id" = some (.str id) := by
  obtain ⟨leaf, isL, isNN⟩ := pos
  cases leaf <;> cases isL <;> cases isNN <;> (cases tv <;> rfl)

theorem kValidationSchema_id (pos : TypedPosition) (tv : Option JVal) (id : String) :
    objGet (kValidationSchema pos tv id) "$id" = some (.str id) := by
  unfold kValidationSchema
  cases tv with
  | none => exact kValidationSchemaBuilt_id pos none id
  | some v => exact objGet_merge_right _ (kValidationSchemaBuilt_id pos (some v) id)

/-- Claim C1, as stated, is false on the code: the final merge is
`{...typeValidation, ...builtValidationSchema}` (line 43), so for a key
present in both the override and the synthesized base it is the
*synthesized* value that survives, not the override's — also for keys that
are not identity keys.  Concretely, at a non-null input-object position
whose override carries `nullable: true`, the key `nullable` is present in
the override (with value `true`) and in the synthesized base (with value
`false`), is not an identity key, and the resulting fragment maps it to the
synthesized `false`, not the override's `true`. -/
theorem C1_counterexample :
    getProp (JVal.obj [("nullable", JVal.bool true)]) "nullable"
      = some (JVal.bool true) ∧
    objGet (kValidationSchemaBuilt ⟨.inputObject "Foo", false, true⟩
        (some (JVal.obj [("nullable", JVal.bool true)])) "X") "nullable"
      = some (JVal.bool false) ∧
    objGet (kValidationSchema ⟨.inputObject "Foo", false, true⟩
        (some (JVal.obj [("nullable", JVal.bool true)])) "X") "nullable"
      = some (JVal.bool false) :=
  ⟨rfl, rfl, rfl⟩

/-- Claim C1, amended: for every key present in both the override fragment
and the synthesized base, the resulting fragment keeps the *synthesized*
value (so in particular the identity keys keep their synthesized values);
the override's entries take effect exactly for the keys the synthesis did
not produce.  (For a scalar-list position the override's `items` entries
have already been folded into the synthesized base's item shape by line
36.) -/
theorem C1_amended (pos : TypedPosition) (tv : JVal) (id k : String) :
    (∀ v, objGet (kValidationSchemaBuilt pos (some tv) id) k = some v →
       objGet (kValidationSchema pos (some tv) id) k = some v) ∧
    (objGet (kValidationSchemaBuilt pos (some tv) id) k = none →
       objGet (kValidationSchema pos (some tv) id) k = objGet (spreadEntries tv) k) := by
  constructor
  · intro v h
    unfold kValidationSchema
    exact objGet_merge_right _ h
  · intro h
    unfold kValidationSchema
    exact objGet_merge_left _ h

/-- Witness for `C1_amended` at a concrete input: a string position whose
override also sets `type`; the synthesized base maps `type` to the inferred
string shape and the result keeps it. -/
theorem C1_amended_witness :
    objGet (kValidationSchemaBuilt ⟨.string, false, true⟩
        (some (JVal.obj [("type", JVal.str "zzz")])) "X") "type"
      = some (JVal.str "string") ∧
    objGet (kValidationSchema ⟨.string, false, true⟩
        (some (JVal.obj [("type", JVal.str "zzz")])) "X") "type"
      = some (JVal.str "string") :=
  ⟨rfl,
   (C1_amended ⟨.string, false, true⟩ (JVal.obj [("type", JVal.str "zzz")]) "X" "type").1
     (JVal.str "string") rfl⟩

/-- Claim C8, as stated, is false on the code: an override fragment at a
composite-leaf position does contribute to the result beyond the reference
substitution — every override key that does not collide with a synthesized
key survives the final `{...typeValidation, ...builtValidationSchema}`
merge.  Concretely, an override `{required: ["x"]}` at a (nullable,
non-list) input-object position lands in the resulting fragment as an
inline structural constraint on the composite's own fields. -/
theorem C8_counterexample :
    objGet (kValidationSchema ⟨.inputObject "Foo", false, false⟩
        (some (JVal.obj [("required", JVal.arr [JVal.str "x"])])) "X") "required"
      = some (JVal.arr [JVal.str "x"]) :=
  rfl

/-- Claim C8, amended: at a composite-leaf position the *synthesis itself*
adds no inline structural constraints beyond the reference — with no
override the fragment is exactly the identity tag, computed type, reference
and nullability (with the reference as the array item shape for lists) —
but an override fragment's entries are merged into the result wherever they
do not collide with a synthesized key. -/
theorem C8_amended (n : String) (isNN : Bool) (id : String) :
    kValidationSchema ⟨.inputObject n, false, isNN⟩ none id =
      [("type", JVal.str "object"), ("$ref", JVal.str (typeRefId n)),
       ("nullable", JVal.bool (!isNN)), ("$id", JVal.str id)] ∧
    kValidationSchema ⟨.inputObject n, true, isNN⟩ none id =
      [("type", JVal.str "array"),
       ("items", JVal.obj [("$ref", JVal.str (typeRefId n))]),
       ("nullable", JVal.bool (!isNN)), ("$id", JVal.str id)] ∧
    ∀ (tv : JVal) (isL : Bool) (k : String),
      objGet (kValidationSchema ⟨.inputObject n, isL, isNN⟩ (some tv) id) k =
        oor (objGet (kValidationSchemaBuilt ⟨.inputObject n, isL, isNN⟩ (some tv) id) k)
            (objGet (spreadEntries tv) k) := by
  refine ⟨rfl, rfl, ?_⟩
  intro tv isL k
  unfold kValidationSchema
  exact objGet_merge (spreadEntries tv) _ k

/-- Claim C3: at a position whose leaf is an input-object type, the
fragment substitutes a reference to the type-level id of that type: for a
list position the reference is the array item shape and the outer type is
"array"; otherwise the outer shape carries the reference directly and the
type is "object"; the outer `nullable` is exactly the negation of the
position's non-nullness; and the reference equals the type-level id of the
leaf and can never equal a field-level id (for slash-free GraphQL names).
All of this holds whatever the override. -/
theorem C3_composite_reference (n : String) (isL isNN : Bool) (tv : Option JVal)
    (id : String) (hn : slashFreeStr n) :
    (isL = true →
       objGet (kValidationSchema ⟨.inputObject n, isL, isNN⟩ tv id) "items"
           = some (.obj [("$ref", JVal.str (typeRefId n))]) ∧
       objGet (kValidationSchema ⟨.inputObject n, isL, isNN⟩ tv id) "type"
           = some (.str "array")) ∧
    (isL = false →
       objGet (kValidationSchema ⟨.inputObject n, isL, isNN⟩ tv id) "$ref"
           = some (.str (typeRefId n)) ∧
       objGet (kValidationSchema ⟨.inputObject n, isL, isNN⟩ tv id) "type"
           = some (.str "object")) ∧
    objGet (kValidationSchema ⟨.inputObject n, isL, isNN⟩ tv id) "nullable"
      = some (.bool (!isNN)) ∧
    ∀ T F : String, slashFreeStr T → typeRefId n ≠ fieldRefId T F := by
  refine ⟨?_, ?_, ?_, fun T F hT => typeRefId_ne_fieldRefId hn T F⟩
  · rintro rfl
    unfold kValidationSchema
    cases tv with
    | none =>
      rw [built_inputObject_list]
      exact ⟨rfl, rfl⟩
    | some v =>
      constructor
      · exact objGet_merge_right _ (by rw [built_inputObject_list]; rfl)
      · exact objGet_merge_right _ (by rw [built_inputObject_list]; rfl)
  · rintro rfl
    unfold kValidationSchema
    cases tv with
    | none =>
      rw [built_inputObject_nonlist]
      exact ⟨rfl, rfl⟩
    | some v =>
      constructor
      · exact objGet_merge_right _ (by rw [built_inputObject_nonlist]; rfl)
      · exact objGet_merge_right _ (by rw [built_inputObject_nonlist]; rfl)
  · unfold kValidationSchema
    cases tv with
    | none =>
      cases isL with
      | true => rw [built_inputObject_list]; rfl
      | false => rw [built_inputObject_nonlist]; rfl
    | some v =>
      cases isL with
      | true => exact objGet_merge_right _ (by rw [built_inputObject_list]; rfl)
      | false => exact objGet_merge_right _ (by rw [built_inputObject_nonlist]; rfl)

/-- Witness for `C3_composite_reference` at a concrete input: a non-null
list position of input-object leaf `Foo`, with an override present. -/
theorem C3_composite_reference_witness :
    slashFreeStr "Foo" ∧
    (objGet (kValidationSchema ⟨.inputObject "Foo", true, true⟩
        (some (JVal.obj [("maxItems", JVal.num 4)])) "X") "items"
      = some (.obj [("$ref", JVal.str (typeRefId "Foo"))]) ∧
     objGet (kValidationSchema ⟨.inputObject "Foo", true, true⟩
        (some (JVal.obj [("maxItems", JVal.num 4)])) "X") "type"
      = some (.str "array")) :=
  ⟨by decide,
   (C3_composite_reference "Foo" true true
     (some (JVal.obj [("maxItems", JVal.num 4)])) "X" (by decide)).1 rfl⟩

/-- Claim C5: for a zero-argument field of an input-object type whose
synthesized fragment has no resolvable `type`, the walk throws the
field-type-undefined error (carrying the fragment's reference id) exactly
when an override was supplied for the field, and silently skips the field
— processing the remaining fields as if it were absent, so it never enters
the owning type's property set — when no override was supplied. -/
theorem C5_untyped_input_field (T F : String) (pos : TypedPosition) (tv : Option JVal)
    (rest : List (String × GqlField))
    (hnotype : objGet (kValidationSchema pos (fieldOverride tv F) (fieldRefId T F)) "type"
      = none) :
    ((fieldOverride tv F).isSome = true →
       processFields tv T true ((F, ⟨none, pos⟩) :: rest)
         = .error (.fieldTypeUndefined (some (.str (fieldRefId T F))))) ∧
    (fieldOverride tv F = none →
       processFields tv T true ((F, ⟨none, pos⟩) :: rest) = processFields tv T true rest) := by
  constructor
  · intro hs
    have hbuild : kBuildInputTypeFieldSchema T F pos (fieldOverride tv F)
        = .error (.fieldTypeUndefined (some (.str (fieldRefId T F)))) := by
      simp [kBuildInputTypeFieldSchema, hnotype, hs, kValidationSchema_id]
    simp [processFields, hbuild, bind, Except.bind]
  · intro hn
    have hbuild : kBuildInputTypeFieldSchema T F pos (fieldOverride tv F) = .ok none := by
      rw [hn] at hnotype ⊢
      simp [kBuildInputTypeFieldSchema, hnotype, isStringOrArray]
    cases hr : processFields tv T true rest with
    | error e => simp [processFields, hbuild, hr, bind, Except.bind]
    | ok out =>
      obtain ⟨p, s, i⟩ := out
      simp [processFields, hbuild, hr, bind, Except.bind]

/-- Witness for `C5_untyped_input_field` at a concrete input: field `x` of
input type `Filters` with leaf an enum-like type (no inferable shape) and
an override `{minLength: 3}`; the pass throws the field-type-undefined
error carrying `https://mercurius.dev/validation/Filters/x`. -/
theorem C5_untyped_input_field_witness :
    objGet (kValidationSchema ⟨.other "E", false, false⟩
        (fieldOverride (some (JVal.obj [("x", JVal.obj [("minLength", JVal.num 3)])])) "x")
        (fieldRefId "Filters" "x")) "type" = none ∧
    processFields (some (JVal.obj [("x", JVal.obj [("minLength", JVal.num 3)])]))
        "Filters" true [("x", ⟨none, ⟨.other "E", false, false⟩⟩)]
      = .error (.fieldTypeUndefined (some (.str (fieldRefId "Filters" "x")))) :=
  ⟨rfl,
   (C5_untyped_input_field "Filters" "x" ⟨.other "E", false, false⟩
     (some (JVal.obj [("x", JVal.obj [("minLength", JVal.num 3)])])) [] rfl).1 rfl⟩

theorem argProps_get (T F : String) (fv : Option JVal) (args : List GqlArgument)
    (a : GqlArgument) (ha : a ∈ args) (hnd : (args.map GqlArgument.name).Nodup) :
    objGet (args.map (fun argument =>
        (argument.name,
         JVal.obj (kValidationSchema argument.pos
           (argOverride fv argument.name)
           (argRefId T F argument.name))))) a.name
      = some (.obj (kValidationSchema a.pos (argOverride fv a.name)
          (argRefId T F a.name))) := by
  induction args with
  | nil => cases ha
  | cons x rest ih =>
    rw [List.map_cons, objGet_cons]
    rcases List.mem_cons.mp ha with h | h
    · subst h
      simp
    · have hx : x.name ≠ a.name := by
        intro he
        rw [List.map_cons] at hnd
        have hmem : a.name ∈ rest.map GqlArgument.name :=
          List.mem_map_of_mem _ h
        rw [he] at hnd
        exact (List.nodup_cons.mp hnd).1 hmem
      rw [if_neg hx]
      rw [List.map_cons] at hnd
      exact ih h (List.nodup_cons.mp hnd).2

/-- Claim C6, as stated, is false on the code: `kBuildArgumentsSchema`
assigns `properties[argument.name]` for *every* argument (line 64), so an
argument with no inferred shape and no override is not omitted — it is
present, mapped to the vacuous fragment holding only its `$id`.
Concretely, an argument of an enum-like leaf with no override appears in
the field's argument-object property set. -/
theorem C6_counterexample :
    objGet (propsOf (kBuildArgumentsSchema "Type" "field"
        [⟨"a", ⟨.other "MyEnum", false, false⟩⟩] none)) "a"
      = some (.obj [("$id", JVal.str "https://mercurius.dev/validation/Type/field/a")]) :=
  rfl

/-- Claim C6, amended: every argument of a field — also one with no
inferred shape and no override — is *included* in the field's
argument-object property set, mapped to its synthesized fragment (which for
an uninferable, override-free argument is just its `$id` tag and constrains
nothing); and such an argument never makes the walk fail: a field with
arguments always extends a successful walk of the remaining fields. -/
theorem C6_amended (T F : String) (args : List GqlArgument) (fv : Option JVal)
    (a : GqlArgument) (ha : a ∈ args) (hnd : (args.map GqlArgument.name).Nodup) :
    (objGet (propsOf (kBuildArgumentsSchema T F args fv)) a.name
       = some (.obj (kValidationSchema a.pos (argOverride fv a.name)
           (argRefId T F a.name)))) ∧
    (∀ (tv : Option JVal) (ii : Bool) (rest : List (String × GqlField))
       (out : Obj × List Obj × List (String × String)) (fpos : TypedPosition),
       0 < args.length →
       processFields tv T ii rest = .ok out →
       processFields tv T ii ((F, ⟨some args, fpos⟩) :: rest)
         = .ok (out.1, kBuildArgumentsSchema T F args (fieldOverride tv F) :: out.2.1,
             (T, F) :: out.2.2)) := by
  constructor
  · exact argProps_get T F fv args a ha hnd
  · intro tv ii rest out fpos hlen hrest
    obtain ⟨p, s, i⟩ := out
    simp [processFields, hlen, hrest, bind, Except.bind]

/-- Witness for `C6_amended` at a concrete input: the single argument `a`
of enum-like leaf with no override is present in the property set with only
its `$id`, and the field never fails the walk. -/
theorem C6_amended_witness :
    ((⟨"a", ⟨.other "MyEnum", false, false⟩⟩ : GqlArgument)
        ∈ [(⟨"a", ⟨.other "MyEnum", false, false⟩⟩ : GqlArgument)] ∧
     ((["a"] : List String).Nodup) ∧
     0 < ([(⟨"a", ⟨.other "MyEnum", false, false⟩⟩ : GqlArgument)]).length) ∧
    objGet (propsOf (kBuildArgumentsSchema "Type" "field"
        [⟨"a", ⟨.other "MyEnum", false, false⟩⟩] none)) "a"
      = some (.obj (kValidationSchema (⟨.other "MyEnum", false, false⟩ : TypedPosition)
          (argOverride none "a") (argRefId "Type" "field" "a"))) ∧
    processFields none "Type" false
        [("field", ⟨some [⟨"a", ⟨.other "MyEnum", false, false⟩⟩], ⟨.string, false, false⟩⟩)]
      = .ok ([], [kBuildArgumentsSchema "Type" "field"
            [⟨"a", ⟨.other "MyEnum", false, false⟩⟩] (fieldOverride none "field")],
          [("Type", "field")]) :=
  ⟨⟨List.mem_singleton.mpr rfl, by decide, by decide⟩,
   (C6_amended "Type" "field" [⟨"a", ⟨.other "MyEnum", false, false⟩⟩] none
       ⟨"a", ⟨.other "MyEnum", false, false⟩⟩ (List.mem_singleton.mpr rfl) (by decide)).1,
   (C6_amended "Type" "field" [⟨"a", ⟨.other "MyEnum", false, false⟩⟩] none
       ⟨"a", ⟨.other "MyEnum", false, false⟩⟩ (List.mem_singleton.mpr rfl) (by decide)).2
     none false [] ([], [], []) ⟨.string, false, false⟩ (by decide) rfl⟩

theorem processFields_zeroarg_ok (tv : Option JVal) (T : String) (ii : Bool)
    (F' : String) (fpos' : TypedPosition) (rest : List (String × GqlField))
    (fargs : Option (List GqlArgument)) (hzero : fargs = none ∨ fargs = some [])
    (props : Obj) (schemas : List Obj) (ints : List (String × String))
    (h : processFields tv T ii ((F', ⟨fargs, fpos'⟩) :: rest) = .ok (props, schemas, ints)) :
    ∃ props' ints', processFields tv T ii rest = .ok (props', schemas, ints') ∧
      ints = ints' := by
  rcases hzero with rfl | rfl <;> cases ii
  case inl.false =>
    simp only [processFields, bind, Except.bind, Bool.false_eq_true, if_false] at h
    cases hr : processFields tv T false rest with
    | error e => rw [hr] at h; cases h
    | ok out =>
      obtain ⟨p, s, i⟩ := out
      rw [hr] at h
      simp only [Except.ok.injEq, Prod.mk.injEq, List.nil_append] at h
      exact ⟨p, i, by rw [h.2.1], h.2.2.symm⟩
  case inl.true =>
    simp only [processFields, bind, Except.bind, if_true] at h
    cases hb : kBuildInputTypeFieldSchema T F' fpos' (fieldOverride tv F') with
    | error e => rw [hb] at h; cases h
    | ok fo =>
      rw [hb] at h
      cases hr : processFields tv T true rest with
      | error e =>
        rw [hr] at h
        cases fo <;> cases h
      | ok out =>
        obtain ⟨p, s, i⟩ := out
        rw [hr] at h
        cases fo <;>
          simp only [Except.ok.injEq, Prod.mk.injEq, List.nil_append,
            List.singleton_append, List.cons_append] at h <;>
          exact ⟨p, i, by rw [h.2.1], h.2.2.symm⟩
  case inr.false =>
    simp only [processFields, bind, Except.bind, List.length_nil,
      Nat.lt_irrefl, if_false, Bool.false_eq_true] at h
    cases hr : processFields tv T false rest with
    | error e => rw [hr] at h; cases h
    | ok out =>
      obtain ⟨p, s, i⟩ := out
      rw [hr] at h
      simp only [Except.ok.injEq, Prod.mk.injEq, List.nil_append] at h
      exact ⟨p, i, by rw [h.2.1], h.2.2.symm⟩
  case inr.true =>
    simp only [processFields, bind, Except.bind, List.length_nil,
      Nat.lt_irrefl, if_false, if_true] at h
    cases hb : kBuildInputTypeFieldSchema T F' fpos' (fieldOverride tv F') with
    | error e => rw [hb] at h; cases h
    | ok fo =>
      rw [hb] at h
      cases hr : processFields tv T true rest with
      | error e =>
        rw [hr] at h
        cases fo <;> cases h
      | ok out =>
        obtain ⟨p, s, i⟩ := out
        rw [hr] at h
        cases fo <;>
          simp only [Except.ok.injEq, Prod.mk.injEq, List.nil_append,
            List.singleton_append, List.cons_append] at h <;>
          exact ⟨p, i, by rw [h.2.1], h.2.2.symm⟩

/-- Claim C7: a field declaring at least one argument contributes exactly
one unit to the pass — the object schema with the field-scoped `$id`,
`type` "object", and the per-argument synthesized fragments as properties —
and is marked for resolver interception, whatever the overrides; a field
with zero arguments (no `args` property, or an empty one) never adds an
interception mark; and a type whose name starts with `__`, or without
`getFields`, contributes no units and no interceptions at all. -/
theorem C7_arguments_unit (tv : Option JVal) (T : String) (ii : Bool) (F : String)
    (args : List GqlArgument) (fpos : TypedPosition) (rest : List (String × GqlField))
    (hargs : 0 < args.length) :
    (∀ props schemas ints,
       processFields tv T ii ((F, ⟨some args, fpos⟩) :: rest) = .ok (props, schemas, ints) →
       ∃ props' schemas' ints',
         processFields tv T ii rest = .ok (props', schemas', ints') ∧
         schemas = kBuildArgumentsSchema T F args (fieldOverride tv F) :: schemas' ∧
         ints = (T, F) :: ints' ∧
         props = props') ∧
    (objGet (kBuildArgumentsSchema T F args (fieldOverride tv F)) "$id"
        = some (.str (fieldRefId T F)) ∧
     objGet (kBuildArgumentsSchema T F args (fieldOverride tv F)) "type"
        = some (.str "object") ∧
     objGet (kBuildArgumentsSchema T F args (fieldOverride tv F)) "properties"
        = some (.obj (args.map (fun argument =>
            (argument.name,
             JVal.obj (kValidationSchema argument.pos
               (argOverride (fieldOverride tv F) argument.name)
               (argRefId T F argument.name))))))) ∧
    (∀ (F' : String) (f' : GqlField), (f'.args = none ∨ f'.args = some []) →
       ∀ props schemas ints,
         processFields tv T ii ((F', f') :: rest) = .ok (props, schemas, ints) →
         ∃ props' ints', processFields tv T ii rest = .ok (props', schemas, ints') ∧
           ints = ints') ∧
    (∀ (vs : Obj) (T'' : String) (ty : GqlNamedType),
       (strStartsWith T'' "__" = true ∨ ty.hasGetFields = false) →
       processType vs T'' ty = .ok ([], [])) := by
  refine ⟨?_, ⟨rfl, rfl, rfl⟩, ?_, ?_⟩
  · intro props schemas ints h
    cases hr : processFields tv T ii rest with
    | error e =>
      rw [show processFields tv T ii ((F, ⟨some args, fpos⟩) :: rest) = .error e by
        simp [processFields, hargs, hr, bind, Except.bind]] at h
      cases h
    | ok out =>
      obtain ⟨p, s, i⟩ := out
      rw [show processFields tv T ii ((F, ⟨some args, fpos⟩) :: rest)
          = .ok (p, kBuildArgumentsSchema T F args (fieldOverride tv F) :: s, (T, F) :: i) by
        simp [processFields, hargs, hr, bind, Except.bind]] at h
      simp only [Except.ok.injEq, Prod.mk.injEq] at h
      obtain ⟨h1, h2, h3⟩ := h
      exact ⟨p, s, i, rfl, h2.symm, h3.symm, h1.symm⟩
  · intro F' f' hzero props schemas ints h
    obtain ⟨fargs, fpos'⟩ := f'
    exact processFields_zeroarg_ok tv T ii F' fpos' rest fargs hzero props schemas ints h
  · intro vs T'' ty hcase
    rcases hcase with hc | hc <;> simp [processType, hc]

/-- Witness for `C7_arguments_unit` at a concrete input: the field
`message(id: ID): String` of type `Query`, with no overrides and an empty
remaining field list. -/
theorem C7_arguments_unit_witness :
    0 < ([(⟨"id", ⟨.id, false, false⟩⟩ : GqlArgument)]).length ∧
    (∃ props' schemas' ints',
       processFields none "Query" false [] = .ok (props', schemas', ints') ∧
       ([kBuildArgumentsSchema "Query" "message" [⟨"id", ⟨.id, false, false⟩⟩]
           (fieldOverride none "message")] : List Obj)
         = kBuildArgumentsSchema "Query" "message" [⟨"id", ⟨.id, false, false⟩⟩]
             (fieldOverride none "message") :: schemas' ∧
       ([("Query", "message")] : List (String × String)) = ("Query", "message") :: ints' ∧
       ([] : Obj) = props') :=
  ⟨by decide,
   (C7_arguments_unit none "Query" false "message" [⟨"id", ⟨.id, false, false⟩⟩]
       ⟨.string, false, false⟩ [] (by decide)).1 [] _ _ rfl⟩

/-- Claim C2, as stated, is false on the code: `registerValidationSchema`
assigns a *fresh* AJV instance to the validator at its very start (line 92,
"Instantiated here to make sure it is reset after a gateway schema
refresh"), before walking the graph, so a failing pass has already
discarded the previously installed registry.  Concretely: after a
successful pass over a `Query.message(id)` schema the field unit is served;
a second pass over a bad schema (an input field with an override but no
resolvable type) throws at walk time, and afterwards the validator serves
*nothing* for the previously compiled field id — not `good`'s unit. -/
theorem C2_counterexample :
    (servedUnit (runRegister initialValidatorState
        [("Query", ⟨false, true,
          [("message", ⟨some [⟨"id", ⟨.id, false, false⟩⟩], ⟨.string, false, false⟩⟩)]⟩)]
        []).1
      (fieldRefId "Query" "message")).isSome = true ∧
    (runRegister (runRegister initialValidatorState
        [("Query", ⟨false, true,
          [("message", ⟨some [⟨"id", ⟨.id, false, false⟩⟩], ⟨.string, false, false⟩⟩)]⟩)]
        []).1
        [("Filters", ⟨true, true, [("x", ⟨none, ⟨.other "E", false, false⟩⟩)]⟩)]
        [("Filters", .obj [("x", .obj [("minLength", .num 3)])])]).2
      = .error (.fieldTypeUndefined (some (.str (fieldRefId "Filters" "x")))) ∧
    servedUnit (runRegister (runRegister initialValidatorState
        [("Query", ⟨false, true,
          [("message", ⟨some [⟨"id", ⟨.id, false, false⟩⟩], ⟨.string, false, false⟩⟩)]⟩)]
        []).1
        [("Filters", ⟨true, true, [("x", ⟨none, ⟨.other "E", false, false⟩⟩)]⟩)]
        [("Filters", .obj [("x", .obj [("minLength", .num 3)])])]).1
      (fieldRefId "Query" "message") = none :=
  ⟨rfl, rfl, rfl⟩

/-- Claim C2, amended: a compilation pass whose graph walk fails does *not*
leave the previously installed registry serving — the validator already
holds the fresh AJV instance created at the start of the pass, so every
lookup misses — and the failure is surfaced to the caller as the result of
the pass, at load time. -/
theorem C2_amended (st : ValidatorState) (s : GqlSchema) (vs : Obj) (e : MerError)
    (hw : walkTypes vs s = .error e) :
    (runRegister st s vs).2 = .error e ∧
    (runRegister st s vs).1.ajv = some freshAjv ∧
    ∀ id, servedUnit (runRegister st s vs).1 id = none := by
  refine ⟨?_, ?_, ?_⟩
  · simp [runRegister, registerValidationSchema, hw]
  · simp [runRegister, registerValidationSchema, hw]
  · intro id
    simp [runRegister, registerValidationSchema, hw, servedUnit, freshAjv]

/-- Witness for `C2_amended` at the concrete failing schema used in the
counterexample for its claim. -/
theorem C2_amended_witness :
    walkTypes [("Filters", JVal.obj [("x", JVal.obj [("minLength", JVal.num 3)])])]
        [("Filters", ⟨true, true, [("x", ⟨none, ⟨.other "E", false, false⟩⟩)]⟩)]
      = .error (.fieldTypeUndefined (some (.str (fieldRefId "Filters" "x")))) ∧
    ∀ id, servedUnit (runRegister initialValidatorState
        [("Filters", ⟨true, true, [("x", ⟨none, ⟨.other "E", false, false⟩⟩)]⟩)]
        [("Filters", JVal.obj [("x", JVal.obj [("minLength", JVal.num 3)])])]).1 id
      = none :=
  ⟨rfl,
   (C2_amended initialValidatorState
     [("Filters", ⟨true, true, [("x", ⟨none, ⟨.other "E", false, false⟩⟩)]⟩)]
     [("Filters", JVal.obj [("x", JVal.obj [("minLength", JVal.num 3)])])]
     (.fieldTypeUndefined (some (.str (fieldRefId "Filters" "x")))) rfl).2.2⟩

theorem compilePhase_events (allIds : List String) (l : List (String × Obj)) :
    ∀ ev ∈ (compilePhase allIds l).2.1, ∃ i, ev = Event.compile i := by
  induction l with
  | nil => intro ev h; cases h
  | cons p rest ih =>
    obtain ⟨id, o⟩ := p
    intro ev h
    by_cases hc : compileOk allIds o = true
    · rw [show compilePhase allIds ((id, o) :: rest)
          = (id :: (compilePhase allIds rest).1, Event.compile id :: (compilePhase allIds rest).2.1,
             (compilePhase allIds rest).2.2) by
        simp [compilePhase, hc]] at h
      rcases List.mem_cons.mp h with h | h
      · exact ⟨id, h⟩
      · exact ih ev h
    · rw [show compilePhase allIds ((id, o) :: rest)
          = ([], [Event.compile id], some (.unresolvedRef id)) by
        simp [compilePhase, hc]] at h
      rcases List.mem_cons.mp h with h | h
      · exact ⟨id, h⟩
      · cases h

theorem compilePhase_all_ok (allIds : List String) (l : List (String × Obj))
    (h : ∀ p ∈ l, compileOk allIds p.2 = true) :
    compilePhase allIds l
      = (l.map Prod.fst, l.map (fun p => Event.compile p.1), none) := by
  induction l with
  | nil => rfl
  | cons p rest ih =>
    obtain ⟨id, o⟩ := p
    have hc : compileOk allIds o = true := h (id, o) (List.mem_cons_self _ _)
    have hrest : ∀ p ∈ rest, compileOk allIds p.2 = true :=
      fun p hp => h p (List.mem_cons_of_mem _ hp)
    simp [compilePhase, hc, ih hrest]

/-- Claim C4: during a pass whose walk succeeds, the trace consists of the
registration events of every unit, in order, followed only by compile
events — no compilation step precedes any registration step; and when every
reference occurring in any unit names some unit of the pass (in particular
forward references to types processed later in iteration order), the forced
compilation of every unit succeeds and the pass returns ok. -/
theorem C4_two_phase (s : GqlSchema) (vs : Obj) (units : List Obj)
    (ints : List (String × String))
    (hw : walkTypes vs s = .ok (units, ints)) :
    (∃ compileEvents,
       (registerValidationSchema s vs).trace
         = units.map (fun u => Event.register (idOf u)) ++ compileEvents ∧
       ∀ ev ∈ compileEvents, ∃ i, ev = Event.compile i) ∧
    ((∀ u ∈ units, ∀ r ∈ refsOfObj u, r ∈ units.map idOf) →
       (registerValidationSchema s vs).result = .ok () ∧
       (registerValidationSchema s vs).ajv.compiled = units.map idOf) := by
  constructor
  · refine ⟨(compilePhase (units.map (fun u => (idOf u, u)) |>.map Prod.fst)
      (units.map (fun u => (idOf u, u)))).2.1, ?_, ?_⟩
    · simp [registerValidationSchema, hw]
    · exact compilePhase_events _ _
  · intro href
    have hok : ∀ p ∈ units.map (fun u => (idOf u, u)),
        compileOk (units.map (fun u => (idOf u, u)) |>.map Prod.fst) p.2 = true := by
      intro p hp
      obtain ⟨u, hu, rfl⟩ := List.mem_map.mp hp
      have hids : (units.map (fun u => (idOf u, u)) |>.map Prod.fst) = units.map idOf := by
        rw [List.map_map]
        rfl
      rw [hids]
      unfold compileOk
      rw [List.all_eq_true]
      intro r hr
      have := href u hu r hr
      exact List.elem_eq_true_of_mem this
    have hcp := compilePhase_all_ok _ _ hok
    have hcp' := hcp
    rw [List.map_map] at hcp'
    constructor
    · simp [registerValidationSchema, hw, hcp']
    · simp only [registerValidationSchema, hw, hcp]
      rw [List.map_map]
      rfl

/-- Witness for `C4_two_phase` at a concrete input: the `Query.message(id)`
schema; the walk produces one unit, the trace is its registration followed
by its compilation, and with all (zero) references resolved the pass
succeeds. -/
theorem C4_two_phase_witness :
    walkTypes [] [("Query", ⟨false, true,
        [("message", ⟨some [⟨"id", ⟨.id, false, false⟩⟩], ⟨.string, false, false⟩⟩)]⟩)]
      = .ok ([kBuildArgumentsSchema "Query" "message" [⟨"id", ⟨.id, false, false⟩⟩] none],
          [("Query", "message")]) ∧
    (∃ compileEvents,
       (registerValidationSchema [("Query", ⟨false, true,
           [("message", ⟨some [⟨"id", ⟨.id, false, false⟩⟩], ⟨.string, false, false⟩⟩)]⟩)]
         []).trace
         = ([kBuildArgumentsSchema "Query" "message" [⟨"id", ⟨.id, false, false⟩⟩] none].map
             (fun u => Event.register (idOf u))) ++ compileEvents ∧
       ∀ ev ∈ compileEvents, ∃ i, ev = Event.compile i) :=
  ⟨rfl,
   (C4_two_phase [("Query", ⟨false, true,
       [("message", ⟨some [⟨"id", ⟨.id, false, false⟩⟩], ⟨.string, false, false⟩⟩)]⟩)]
     []
     [kBuildArgumentsSchema "Query" "message" [⟨"id", ⟨.id, false, false⟩⟩] none]
     [("Query", "message")] rfl).1⟩

theorem finalTypeSchema_keys (T : String) (tv : Option JVal) (props : Obj) :
    objGet (finalTypeSchema T tv props) "$id" = some (.str (typeRefId T)) ∧
    objGet (finalTypeSchema T tv props) "type" = some (.str "object") ∧
    objGet (finalTypeSchema T tv props) "nullable" = some (.bool true) ∧
    objGet (finalTypeSchema T tv props) "properties" = some (.obj props) := by
  cases tv with
  | none => exact ⟨rfl, rfl, rfl, rfl⟩
  | some v =>
    have hred : finalTypeSchema T (some v) props =
        (match getProp v "__typeValidation" with
         | some tvv => objMerge (spreadEntries tvv) (typeLevelSchema T props)
         | none => typeLevelSchema T props) := rfl
    rw [hred]
    cases hv : getProp v "__typeValidation" with
    | none => exact ⟨rfl, rfl, rfl, rfl⟩
    | some tvv =>
      refine ⟨objGet_merge_right _ ?_, objGet_merge_right _ ?_,
        objGet_merge_right _ ?_, objGet_merge_right _ ?_⟩ <;> rfl

theorem idOf_finalTypeSchema (T : String) (tv : Option JVal) (props : Obj) :
    idOf (finalTypeSchema T tv props) = typeRefId T := by
  unfold idOf
  rw [(finalTypeSchema_keys T tv props).1]

/-- Claim C9: every reference id the pass assigns is a pure function of the
unit's name triple alone — the field-scoped unit built for `(T, F)` carries
id `base/T/F`, each of its argument fragments carries `base/T/F/a`, the
type-level unit for `T` carries `base/T` (also under a `__typeValidation`
override), and an input-field fragment synthesized for `(T, F)` carries
`base/T/F` — so recompiling an unchanged graph reassigns identical ids; and
the encoding is injective on slash-free GraphQL name triples, so distinct
triples always receive distinct ids within one pass. -/
theorem C9_reference_ids :
    (∀ (T F : String) (args : List GqlArgument) (fv : Option JVal),
       idOf (kBuildArgumentsSchema T F args fv) = refIdOf (.fieldLevel T F)) ∧
    (∀ (T F : String) (args : List GqlArgument) (fv : Option JVal) (a : GqlArgument),
       a ∈ args → (args.map GqlArgument.name).Nodup →
       ∃ frag, objGet (propsOf (kBuildArgumentsSchema T F args fv)) a.name
           = some (.obj frag) ∧
         objGet frag "$id" = some (.str (refIdOf (.argLevel T F a.name)))) ∧
    (∀ (T : String) (tv : Option JVal) (props : Obj),
       idOf (finalTypeSchema T tv props) = refIdOf (.typeLevel T)) ∧
    (∀ (T F : String) (pos : TypedPosition) (fv : Option JVal),
       objGet (kValidationSchema pos fv (fieldRefId T F)) "$id"
         = some (.str (refIdOf (.fieldLevel T F)))) ∧
    (∀ t1 t2 : RefTriple, t1.slashFree → t2.slashFree →
       refIdOf t1 = refIdOf t2 → t1 = t2) := by
  refine ⟨fun _ _ _ _ => rfl, ?_, idOf_finalTypeSchema, ?_, refIdOf_inj⟩
  · intro T F args fv a ha hnd
    refine ⟨kValidationSchema a.pos (argOverride fv a.name) (argRefId T F a.name), ?_, ?_⟩
    · exact argProps_get T F fv args a ha hnd
    · exact kValidationSchema_id a.pos (argOverride fv a.name) (argRefId T F a.name)
  · intro T F pos fv
    exact kValidationSchema_id pos fv (fieldRefId T F)

/-- Witness for `C9_reference_ids` at concrete inputs: the argument clause
at a one-argument field, and the injectivity clause at two distinct
slash-free triples. -/
theorem C9_reference_ids_witness :
    ((⟨"a", ⟨.string, false, false⟩⟩ : GqlArgument)
        ∈ [(⟨"a", ⟨.string, false, false⟩⟩ : GqlArgument)] ∧
     (["a"] : List String).Nodup ∧
     (RefTriple.fieldLevel "T" "f").slashFree) ∧
    (∃ frag, objGet (propsOf (kBuildArgumentsSchema "T" "f"
          [⟨"a", ⟨.string, false, false⟩⟩] none)) "a" = some (.obj frag) ∧
       objGet frag "$id" = some (.str (refIdOf (.argLevel "T" "f" "a")))) :=
  ⟨⟨List.mem_singleton.mpr rfl, by decide, by decide⟩,
   C9_reference_ids.2.1 "T" "f" [⟨"a", ⟨.string, false, false⟩⟩] none
     ⟨"a", ⟨.string, false, false⟩⟩ (List.mem_singleton.mpr rfl) (by decide)⟩

theorem processFields_cons_ok (tv : Option JVal) (T : String) (ii : Bool)
    (F0 : String) (fld : GqlField) (rest : List (String × GqlField))
    (p : Obj) (s : List Obj) (i : List (String × String))
    (h : processFields tv T ii ((F0, fld) :: rest) = .ok (p, s, i)) :
    ∃ p' s' i', processFields tv T ii rest = .ok (p', s', i') ∧
      ((∃ args, fld.args = some args ∧
          s = kBuildArgumentsSchema T F0 args (fieldOverride tv F0) :: s') ∨ s = s') := by
  obtain ⟨fargs, fpos⟩ := fld
  cases fargs with
  | none =>
    obtain ⟨p', i', hrest, hi⟩ :=
      processFields_zeroarg_ok tv T ii F0 fpos rest none (Or.inl rfl) p s i h
    exact ⟨p', s, i', hrest, Or.inr rfl⟩
  | some args =>
    by_cases hl : 0 < args.length
    · cases hr : processFields tv T ii rest with
      | error e =>
        rw [show processFields tv T ii ((F0, ⟨some args, fpos⟩) :: rest) = .error e by
          simp [processFields, hl, hr, bind, Except.bind]] at h
        cases h
      | ok out =>
        obtain ⟨p0, s0, i0⟩ := out
        rw [show processFields tv T ii ((F0, ⟨some args, fpos⟩) :: rest)
            = .ok (p0, kBuildArgumentsSchema T F0 args (fieldOverride tv F0) :: s0,
                (T, F0) :: i0) by
          simp [processFields, hl, hr, bind, Except.bind]] at h
        simp only [Except.ok.injEq, Prod.mk.injEq] at h
        exact ⟨p0, s0, i0, rfl, Or.inl ⟨args, rfl, h.2.1.symm⟩⟩
    · have hz : args = [] := List.length_eq_zero.mp (Nat.eq_zero_of_not_pos hl)
      subst hz
      obtain ⟨p', i', hrest, hi⟩ :=
        processFields_zeroarg_ok tv T ii F0 fpos rest (some []) (Or.inr rfl) p s i h
      exact ⟨p', s, i', hrest, Or.inr rfl⟩

theorem processFields_schemas_shape (tv : Option JVal) (T : String) (ii : Bool)
    (fl : List (String × GqlField)) :
    ∀ p s i, processFields tv T ii fl = .ok (p, s, i) →
      ∀ u ∈ s, ∃ F args, u = kBuildArgumentsSchema T F args (fieldOverride tv F) := by
  induction fl with
  | nil =>
    intro p s i h u hu
    simp only [processFields, Except.ok.injEq, Prod.mk.injEq] at h
    rw [← h.2.1] at hu
    cases hu
  | cons hd rest ih =>
    obtain ⟨F0, fld⟩ := hd
    intro p s i h u hu
    obtain ⟨p', s', i', hrest, hshape⟩ := processFields_cons_ok tv T ii F0 fld rest p s i h
    rcases hshape with ⟨args, hargs, rfl⟩ | rfl
    · rcases List.mem_cons.mp hu with rfl | hu'
      · exact ⟨F0, args, rfl⟩
      · exact ih p' s' i' hrest u hu'
    · exact ih p' s i' hrest u hu

theorem processType_input_ok (vs : Obj) (T : String) (ty : GqlNamedType)
    (s : List Obj) (i : List (String × String))
    (hgf : ty.hasGetFields = true) (hT : strStartsWith T "__" = false)
    (hin : ty.isInputObject = true)
    (h : processType vs T ty = .ok (s, i)) :
    ∃ props fs fi,
      processFields (orNull (objGet vs T)) T true ty.fields = .ok (props, fs, fi) ∧
      s = fs ++ [finalTypeSchema T (orNull (objGet vs T)) props] ∧ i = fi := by
  cases hp : processFields (orNull (objGet vs T)) T ty.isInputObject ty.fields with
  | error e =>
    rw [show processType vs T ty = .error e by
      simp [processType, hT, hgf, hp, bind, Except.bind]] at h
    cases h
  | ok out =>
    obtain ⟨props, fs, fi⟩ := out
    rw [hin] at hp
    rw [show processType vs T ty
        = .ok (fs ++ [finalTypeSchema T (orNull (objGet vs T)) props], fi) by
      simp [processType, hT, hgf, hin, hp, bind, Except.bind]] at h
    simp only [Except.ok.injEq, Prod.mk.injEq] at h
    exact ⟨props, fs, fi, hp, h.1.symm, h.2.symm⟩

theorem processType_ids (vs : Obj) (T' : String) (ty : GqlNamedType)
    (s : List Obj) (i : List (String × String))
    (h : processType vs T' ty = .ok (s, i)) :
    ∀ u ∈ s, idOf u = typeRefId T' ∨ ∃ F, idOf u = fieldRefId T' F := by
  intro u hu
  by_cases hg : (!strStartsWith T' "__" && ty.hasGetFields) = true
  · cases hp : processFields (orNull (objGet vs T')) T' ty.isInputObject ty.fields with
    | error e =>
      rw [show processType vs T' ty = .error e by
        simp [processType, hg, hp, bind, Except.bind]] at h
      cases h
    | ok out =>
      obtain ⟨props, fs, fi⟩ := out
      rw [show processType vs T' ty
          = .ok ((if ty.isInputObject then
              fs ++ [finalTypeSchema T' (orNull (objGet vs T')) props] else fs), fi) by
        simp [processType, hg, hp, bind, Except.bind]] at h
      simp only [Except.ok.injEq, Prod.mk.injEq] at h
      rw [← h.1] at hu
      have hfs : ∀ w ∈ fs, idOf w = typeRefId T' ∨ ∃ F, idOf w = fieldRefId T' F := by
        intro w hw
        obtain ⟨F, args, rfl⟩ :=
          processFields_schemas_shape (orNull (objGet vs T')) T' ty.isInputObject
            ty.fields props fs fi hp w hw
        exact Or.inr ⟨F, rfl⟩
      by_cases hio : ty.isInputObject = true
      · rw [if_pos hio] at hu
        rcases List.mem_append.mp hu with hw | hw
        · exact hfs u hw
        · rcases List.mem_singleton.mp hw with rfl
          exact Or.inl (idOf_finalTypeSchema T' _ props)
      · rw [if_neg hio] at hu
        exact hfs u hu
  · rw [show processType vs T' ty = .ok ([], []) by
      simp only [processType]
      rw [if_neg (by simpa using hg)]] at h
    simp only [Except.ok.injEq, Prod.mk.injEq] at h
    rw [← h.1] at hu
    cases hu

theorem walkTypes_cons_ok (vs : Obj) (T0 : String) (ty0 : GqlNamedType)
    (rest : GqlSchema) (units : List Obj) (ints : List (String × String))
    (h : walkTypes vs ((T0, ty0) :: rest) = .ok (units, ints)) :
    ∃ s0 i0 s1 i1, processType vs T0 ty0 = .ok (s0, i0) ∧
      walkTypes vs rest = .ok (s1, i1) ∧ units = s0 ++ s1 ∧ ints = i0 ++ i1 := by
  cases hp : processType vs T0 ty0 with
  | error e =>
    rw [show walkTypes vs ((T0, ty0) :: rest) = .error e by
      simp [walkTypes, hp, bind, Except.bind]] at h
    cases h
  | ok out0 =>
    obtain ⟨s0, i0⟩ := out0
    cases hr : walkTypes vs rest with
    | error e =>
      rw [show walkTypes vs ((T0, ty0) :: rest) = .error e by
        simp [walkTypes, hp, hr, bind, Except.bind]] at h
      cases h
    | ok out1 =>
      obtain ⟨s1, i1⟩ := out1
      rw [show walkTypes vs ((T0, ty0) :: rest) = .ok (s0 ++ s1, i0 ++ i1) by
        simp [walkTypes, hp, hr, bind, Except.bind]] at h
      simp only [Except.ok.injEq, Prod.mk.injEq] at h
      exact ⟨s0, i0, s1, i1, rfl, rfl, h.1.symm, h.2.symm⟩

theorem walkTypes_filter_none (vs : Obj) (l : GqlSchema) (units : List Obj)
    (ints : List (String × String)) (h : walkTypes vs l = .ok (units, ints))
    (T : String) (hsf : slashFreeStr T) (hni : T ∉ l.map Prod.fst) :
    units.filter (fun u => idOf u == typeRefId T) = [] := by
  induction l generalizing units ints with
  | nil =>
    simp only [walkTypes, Except.ok.injEq, Prod.mk.injEq] at h
    rw [← h.1]
    rfl
  | cons hd rest ih =>
    obtain ⟨T0, ty0⟩ := hd
    obtain ⟨s0, i0, s1, i1, hp0, hw1, rfl, rfl⟩ := walkTypes_cons_ok vs T0 ty0 rest units ints h
    have hT0 : T0 ≠ T := by
      intro he
      exact hni (by rw [← he]; exact List.mem_map_of_mem _ (List.mem_cons_self _ _))
    have hni' : T ∉ rest.map Prod.fst := by
      intro hm
      exact hni (by rw [List.map_cons]; exact List.mem_cons_of_mem _ hm)
    rw [List.filter_append, ih s1 i1 hw1 hni']
    rw [List.append_nil]
    rw [List.filter_eq_nil_iff]
    intro u hu
    rcases processType_ids vs T0 ty0 s0 i0 hp0 u hu with hid | ⟨F, hid⟩
    · simp only [hid, beq_iff_eq]
      intro he
      exact hT0 (typeRefId_inj he)
    · simp only [hid, beq_iff_eq]
      intro he
      exact typeRefId_ne_fieldRefId hsf T0 F he.symm

/-- Claim C10: when the walk succeeds, every input-object type `T` whose
name does not start with `__` yields exactly one registered unit whose id
is the type-level `https://mercurius.dev/validation/T`; that unit's `$id`,
`type` ("object"), `nullable` (`true`) and `properties` (the accumulated
field fragments) carry the built values — the `__typeValidation` merge can
never displace them, because `orNull (objGet vs T)` is arbitrary here —
and the unit is among the registered units, so a type-level `$ref` emitted
for a composite-leaf position of type `T` has a registered target
(instantiate this theorem at each referenced type). -/
theorem C10_type_level_unit (s : GqlSchema) (vs : Obj) (units : List Obj)
    (ints : List (String × String)) (T : String) (ty : GqlNamedType)
    (hin : ty.isInputObject = true) (hgf : ty.hasGetFields = true)
    (hT : strStartsWith T "__" = false) (hsf : slashFreeStr T)
    (hw : walkTypes vs s = .ok (units, ints))
    (hnd : (s.map Prod.fst).Nodup)
    (hmem : (T, ty) ∈ s) :
    ∃ props fs fi,
      processFields (orNull (objGet vs T)) T true ty.fields = .ok (props, fs, fi) ∧
      units.filter (fun u => idOf u == typeRefId T)
        = [finalTypeSchema T (orNull (objGet vs T)) props] ∧
      objGet (finalTypeSchema T (orNull (objGet vs T)) props) "$id"
        = some (.str (typeRefId T)) ∧
      objGet (finalTypeSchema T (orNull (objGet vs T)) props) "type"
        = some (.str "object") ∧
      objGet (finalTypeSchema T (orNull (objGet vs T)) props) "nullable"
        = some (.bool true) ∧
      objGet (finalTypeSchema T (orNull (objGet vs T)) props) "properties"
        = some (.obj props) ∧
      finalTypeSchema T (orNull (objGet vs T)) props ∈ units := by
  revert hw hnd hmem
  induction s generalizing units ints with
  | nil =>
    intro hw hnd hmem
    cases hmem
  | cons hd rest ih =>
    obtain ⟨T0, ty0⟩ := hd
    intro hw hnd hmem
    obtain ⟨s0, i0, s1, i1, hp0, hw1, rfl, rfl⟩ :=
      walkTypes_cons_ok vs T0 ty0 rest units ints hw
    have hndr : (rest.map Prod.fst).Nodup := by
      rw [List.map_cons] at hnd
      exact (List.nodup_cons.mp hnd).2
    have hhead : T0 ∉ rest.map Prod.fst := by
      rw [List.map_cons] at hnd
      exact (List.nodup_cons.mp hnd).1
    by_cases hT0 : T0 = T
    · subst hT0
      have hty : ty0 = ty := by
        rcases List.mem_cons.mp hmem with he | hm
        · exact (congrArg Prod.snd he).symm
        · exact absurd (List.mem_map_of_mem Prod.fst hm) hhead
      subst hty
      have hf1 : s1.filter (fun u => idOf u == typeRefId T0) = [] :=
        walkTypes_filter_none vs rest s1 i1 hw1 T0 hsf hhead
      obtain ⟨props, fs, fi, hpf, rfl, rfl⟩ :=
        processType_input_ok vs T0 ty0 s0 i0 hgf hT hin hp0
      have hffs : fs.filter (fun u => idOf u == typeRefId T0) = [] := by
        rw [List.filter_eq_nil_iff]
        intro w hw'
        obtain ⟨F, args, rfl⟩ :=
          processFields_schemas_shape (orNull (objGet vs T0)) T0 true
            ty0.fields props fs i0 hpf w hw'
        simp only [beq_iff_eq]
        intro he
        exact typeRefId_ne_fieldRefId hsf T0 F
          (show typeRefId T0 = fieldRefId T0 F from he.symm)
      have hfin : ([finalTypeSchema T0 (orNull (objGet vs T0)) props]).filter
          (fun u => idOf u == typeRefId T0)
          = [finalTypeSchema T0 (orNull (objGet vs T0)) props] := by
        simp [List.filter, idOf_finalTypeSchema]
      refine ⟨props, fs, i0, hpf, ?_, (finalTypeSchema_keys T0 _ props).1,
        (finalTypeSchema_keys T0 _ props).2.1, (finalTypeSchema_keys T0 _ props).2.2.1,
        (finalTypeSchema_keys T0 _ props).2.2.2, ?_⟩
      · rw [List.filter_append, List.filter_append, hf1, hffs, hfin]
        rfl
      · exact List.mem_append_left _
          (List.mem_append_right _ (List.mem_singleton.mpr rfl))
    · have hmem' : (T, ty) ∈ rest := by
        rcases List.mem_cons.mp hmem with he | hm
        · exact absurd (congrArg Prod.fst he).symm hT0
        · exact hm
      obtain ⟨props, fs, fi, hpf, hfil, hk1, hk2, hk3, hk4, hmemu⟩ :=
        ih s1 i1 hw1 hndr hmem'
      have hf0 : s0.filter (fun u => idOf u == typeRefId T) = [] := by
        rw [List.filter_eq_nil_iff]
        intro w hw'
        rcases processType_ids vs T0 ty0 s0 i0 hp0 w hw' with hid | ⟨F, hid⟩
        · simp only [hid, beq_iff_eq]
          intro he
          exact hT0 (typeRefId_inj he)
        · simp only [hid, beq_iff_eq]
          intro he
          exact typeRefId_ne_fieldRefId hsf T0 F he.symm
      refine ⟨props, fs, fi, hpf, ?_, hk1, hk2, hk3, hk4, List.mem_append_right _ hmemu⟩
      rw [List.filter_append, hf0, hfil]
      rfl

/-- Witness for `C10_type_level_unit` at a concrete input: input type
`Filters` with no fields and a `__typeValidation` override; the pass
registers exactly one type-level unit, whose identity keys keep the built
values despite the override. -/
theorem C10_type_level_unit_witness :
    (walkTypes
        [("Filters", JVal.obj [("__typeValidation", JVal.obj [("minProperties", JVal.num 1)])])]
        [("Filters", ⟨true, true, []⟩)]
      = .ok ([finalTypeSchema "Filters"
          (orNull (objGet
            [("Filters", JVal.obj [("__typeValidation", JVal.obj [("minProperties", JVal.num 1)])])]
            "Filters")) []], []) ∧
     (([("Filters", (⟨true, true, []⟩ : GqlNamedType))] : GqlSchema).map Prod.fst).Nodup ∧
     ("Filters", (⟨true, true, []⟩ : GqlNamedType))
        ∈ ([("Filters", (⟨true, true, []⟩ : GqlNamedType))] : GqlSchema) ∧
     strStartsWith "Filters" "__" = false ∧
     slashFreeStr "Filters") ∧
    (∃ props fs fi,
       processFields (orNull (objGet
           [("Filters", JVal.obj [("__typeValidation", JVal.obj [("minProperties", JVal.num 1)])])]
           "Filters")) "Filters" true [] = .ok (props, fs, fi) ∧
       ([finalTypeSchema "Filters"
           (orNull (objGet
             [("Filters", JVal.obj [("__typeValidation", JVal.obj [("minProperties", JVal.num 1)])])]
             "Filters")) []].filter (fun u => idOf u == typeRefId "Filters"))
         = [finalTypeSchema "Filters"
             (orNull (objGet
               [("Filters", JVal.obj [("__typeValidation", JVal.obj [("minProperties", JVal.num 1)])])]
               "Filters")) props] ∧
       objGet (finalTypeSchema "Filters"
           (orNull (objGet
             [("Filters", JVal.obj [("__typeValidation", JVal.obj [("minProperties", JVal.num 1)])])]
             "Filters")) props) "$id" = some (.str (typeRefId "Filters")) ∧
       objGet (finalTypeSchema "Filters"
           (orNull (objGet
             [("Filters", JVal.obj [("__typeValidation", JVal.obj [("minProperties", JVal.num 1)])])]
             "Filters")) props) "type" = some (.str "object") ∧
       objGet (finalTypeSchema "Filters"
           (orNull (objGet
             [("Filters", JVal.obj [("__typeValidation", JVal.obj [("minProperties", JVal.num 1)])])]
             "Filters")) props) "nullable" = some (.bool true) ∧
       objGet (finalTypeSchema "Filters"
           (orNull (objGet
             [("Filters", JVal.obj [("__typeValidation", JVal.obj [("minProperties", JVal.num 1)])])]
             "Filters")) props) "properties" = some (.obj props) ∧
       finalTypeSchema "Filters"
           (orNull (objGet
             [("Filters", JVal.obj [("__typeValidation", JVal.obj [("minProperties", JVal.num 1)])])]
             "Filters")) props
         ∈ [finalTypeSchema "Filters"
             (orNull (objGet
               [("Filters", JVal.obj [("__typeValidation", JVal.obj [("minProperties", JVal.num 1)])])]
               "Filters")) []]) :=
  ⟨⟨rfl, by decide, List.mem_singleton.mpr rfl, rfl, by decide⟩,
   C10_type_level_unit
     [("Filters", ⟨true, true, []⟩)]
     [("Filters", JVal.obj [("__typeValidation", JVal.obj [("minProperties", JVal.num 1)])])]
     [finalTypeSchema "Filters"
       (orNull (objGet
         [("Filters", JVal.obj [("__typeValidation", JVal.obj [("minProperties", JVal.num 1)])])]
         "Filters")) []]
     [] "Filters" ⟨true, true, []⟩ rfl rfl rfl (by decide) rfl (by decide)
     (List.mem_singleton.mpr rfl)⟩
